import Mathlib

/-!
Verification of the pixel-agents session-monitoring core
(`src/webview-ui/src-tauri/src/lib.rs`), shallowly embedded in Lean.

Machine integers (`i64`) are modelled as `Int`; the only i64 operation whose
overflow behaviour matters is `saturating_mul`, modelled explicitly.  Rust `/`
on `i64` truncates toward zero, modelled by `Int.tdiv`.  The filesystem and
SQLite database are modelled by records carrying the values the scanners read
from them (field lookups that the code performs on parsed JSON are modelled as
`Option`-valued fields).  The merge map (`HashMap<String, AgentTemp>`) is
modelled as an association list with at most one binding per key, with
insert-or-update operations mirroring `HashMap` semantics.
-/

/-- `i64::saturating_mul`, clamping the mathematical product to the i64 range. -/
def i64SaturatingMul (a b : Int) : Int :=
  let p := a * b
  if p > 9223372036854775807 then 9223372036854775807
  else if p < -9223372036854775808 then -9223372036854775808
  else p

/-- `normalize_epoch_ms` from lib.rs: heuristic magnitude classifier converting
an epoch value of unknown unit (s / ms / µs / ns) to milliseconds. -/
def normalize_epoch_ms (value : Int) : Int :=
  if value ≤ 0 then value
  else if value < 10000000000 then i64SaturatingMul value 1000
  else if value > 10000000000000000 then Int.tdiv value 1000000
  else if value > 10000000000000 then Int.tdiv value 1000
  else value

/-- `MAX_MONITOR_TEXT_CHARS` from lib.rs. -/
def MAX_MONITOR_TEXT_CHARS : Nat := 180

/-- `IDLE_AFTER_MS` from lib.rs. -/
def IDLE_AFTER_MS : Int := 20000

/-- `DONE_AFTER_MS` from lib.rs. -/
def DONE_AFTER_MS : Int := 90000

/-- `truncate_text` from lib.rs: cap a string at `MAX_MONITOR_TEXT_CHARS`
characters (counted in chars, not bytes), appending `"..."` when truncated. -/
def truncate_text (text : String) : String :=
  if text.length ≤ MAX_MONITOR_TEXT_CHARS then text
  else ⟨text.data.take MAX_MONITOR_TEXT_CHARS⟩ ++ "..."

/-- `truncate_option_text` from lib.rs. -/
def truncate_option_text (text : Option String) : Option String :=
  text.map truncate_text

/-- Rust `str::to_lowercase`, modelled character-wise (the statuses the
scanner compares against are ASCII, where this agrees with Rust). -/
def rust_to_lowercase (s : String) : String :=
  ⟨s.data.map Char.toLower⟩

/-- `Option::or`-style gap filling: Rust's
`if x.is_none() { x = y.clone() }` pattern used by `upsert_agent`. -/
def orElseO {α : Type} (a b : Option α) : Option α :=
  match a with
  | none => b
  | some v => some v

/-- `MonitorEventView` from lib.rs. -/
structure MonitorEventView where
  ts_ms : Int
  event_type : String
  state_hint : String
  text : Option String
  files_touched : List String
deriving DecidableEq, Repr

/-- `AgentTemp` from lib.rs: the per-poll merged record for one agent. -/
structure AgentTemp where
  key : String
  source : String
  session_id : String
  agent_name : Option String
  state : String
  last_ts_ms : Int
  last_text : Option String
  repo_path : Option String
  recent_events : List MonitorEventView
deriving DecidableEq, Repr

/-- The merge map `HashMap<String, AgentTemp>`, as an association list.
Lookup takes the first binding; the scanners only ever create one binding
per key (proved below for the operations involved). -/
abbrev AMap := List (String × AgentTemp)

/-- First-match association lookup (`HashMap::get`). -/
def lookupA : List (String × AgentTemp) → String → Option AgentTemp
  | [], _ => none
  | (k, v) :: rest, key => if k = key then some v else lookupA rest key

/-- Association lookup for string tables (`HashMap<String, String>::get`). -/
def lookupS : List (String × String) → String → Option String
  | [], _ => none
  | (k, v) :: rest, key => if k = key then some v else lookupS rest key

/-- `HashMap<String, String>::insert`: replace the binding if present,
otherwise add it. -/
def insertS : List (String × String) → String → String → List (String × String)
  | [], k, v => [(k, v)]
  | (k', v') :: rest, k, v =>
    if k' = k then (k, v) :: rest else (k', v') :: insertS rest k v

/-- The merge of `upsert_agent`'s replacement branch: the incoming observation
wins, but fields it leaves unset are back-filled from the outgoing record. -/
def mergeAgents (incoming existing : AgentTemp) : AgentTemp :=
  { incoming with
    repo_path := orElseO incoming.repo_path existing.repo_path,
    last_text := orElseO incoming.last_text existing.last_text,
    agent_name := orElseO incoming.agent_name existing.agent_name }

/-- `upsert_agent` from lib.rs: keyed insert-or-merge into the merge map.
An existing record is replaced only when the incoming timestamp is `>=` the
stored one; on replacement unset fields are back-filled (`mergeAgents`). -/
def upsert_agent (m : AMap) (incoming : AgentTemp) : AMap :=
  match m with
  | [] => [(incoming.key, incoming)]
  | (k, e) :: rest =>
    if k = incoming.key then
      if incoming.last_ts_ms ≥ e.last_ts_ms then
        (k, mergeAgents incoming e) :: rest
      else
        (k, e) :: rest
    else
      (k, e) :: upsert_agent rest incoming

/-- The aging policy applied to each agent in `desktop_monitor_tick`
(lib.rs lines 510-531), with `silence = now - last_ts_ms`. -/
def ageAgent (now : Int) (a : AgentTemp) : AgentTemp :=
  let silence := now - a.last_ts_ms
  let a1 :=
    if (a.state = "running" ∨ a.state = "thinking" ∨ a.state = "waiting")
        ∧ silence > IDLE_AFTER_MS then
      { a with state := "idle",
               last_text := if a.last_text = some "Thinking" then some "Idle"
                            else a.last_text }
    else a
  if a1.state = "idle" ∧ silence > DONE_AFTER_MS then
    { a1 with state := "done",
              last_text := if a1.last_text = none ∨ a1.last_text = some "Idle"
                              ∨ a1.last_text = some "Thinking"
                           then some "No recent activity"
                           else a1.last_text }
  else a1

/-!
## OpenCode part classification

The `part` classification logic appears twice in lib.rs, textually identical:
once for SQLite part rows (lines 747-823) and once for JSON part files
(lines 940-1014), differing only in the name of the fallback timestamp
(`fallback_ts` vs `modified`).  It is embedded once here.  A `PartRecord`
carries the results of the JSON field accesses the code performs on the
parsed part document. -/

/-- One parsed OpenCode part document, abstracted to the fields the scanner
reads: `type`, `state.status`, `tool`, `state.time.start`, `state.time.end`,
`time.start`, `time.end`, `text`, `reason`. -/
structure PartRecord where
  part_type : String
  state_status : Option String
  tool : Option String
  state_time_start : Option Int
  state_time_end : Option Int
  time_start : Option Int
  time_end : Option Int
  text : Option String
  reason : Option String
deriving DecidableEq, Repr

/-- Classify one OpenCode part record, given the fallback timestamp
(already normalized by the caller).  Returns
`(state hint, event type, text, timestamp)`, or `none` for part types the
scanner skips (`continue`). -/
def classify_opencode_part (p : PartRecord) (fallback_ts : Int) :
    Option (String × String × Option String × Int) :=
  if p.part_type = "tool" then
    let status := p.state_status.getD "running"
    let normalized_status := rust_to_lowercase status
    let tool_name := p.tool.getD "tool"
    let start_ts := (p.state_time_start.map normalize_epoch_ms).getD fallback_ts
    let end_ts := p.state_time_end.map normalize_epoch_ms
    let hint :=
      if normalized_status = "error" then "error"
      else if normalized_status = "completed" ∨ end_ts.isSome then "done"
      else "running"
    some (hint,
          if normalized_status = "error" then "error" else "tool",
          some (tool_name ++ ": " ++ normalized_status),
          end_ts.getD start_ts)
  else if p.part_type = "reasoning" then
    let start_ts := (p.time_start.map normalize_epoch_ms).getD fallback_ts
    let end_ts := p.time_end.map normalize_epoch_ms
    some ("thinking", "status",
          orElseO p.text (some "Thinking"),
          end_ts.getD start_ts)
  else if p.part_type = "step-start" then
    some ("running", "status", some "Step started", fallback_ts)
  else if p.part_type = "step-finish" then
    some ("done", "status",
          some ("Step finished: " ++ p.reason.getD "stop"),
          fallback_ts)
  else
    none

/-!
## SQLite-store scanner (`scan_opencode_db`)

The database is modelled by the rows the two queries return plus success
flags for each fallible step (file existence, opening the connection,
preparing each statement, running each query).  Per-row failures inside
`query_map`/`flatten` simply yield fewer rows, which the row lists absorb;
a part row whose `data` payload fails to parse as JSON carries `none`. -/

/-- One row of the `session` table query: `id, directory, title, time_updated`. -/
structure SessionRow where
  id : String
  directory : String
  title : Option String
  time_updated : Int
deriving DecidableEq, Repr

/-- One row of the `part` table query: `session_id, time_updated, data`
(`data` is the decoded JSON payload; `none` models a parse failure). -/
structure PartRow where
  session_id : String
  time_updated : Int
  data : Option PartRecord
deriving DecidableEq, Repr

/-- The observable state of the OpenCode SQLite database. -/
structure DbEnv where
  file_exists : Bool
  open_ok : Bool
  session_stmt_ok : Bool
  session_query_ok : Bool
  sessions : List SessionRow
  part_stmt_ok : Bool
  part_query_ok : Bool
  parts : List PartRow
deriving DecidableEq, Repr

/-- The observation a session row is folded in as (lib.rs lines 693-717). -/
def sessionRowObs (r : SessionRow) : AgentTemp :=
  let ts := normalize_epoch_ms r.time_updated
  { key := "opencode:" ++ r.id,
    source := "opencode",
    session_id := r.id,
    agent_name := r.title,
    state := "running",
    last_ts_ms := ts,
    last_text := some "Session activity",
    repo_path := some r.directory,
    recent_events := [{ ts_ms := ts, event_type := "status", state_hint := "running",
                        text := some "Session activity", files_touched := [] }] }

/-- The `session_repo` map seeded while folding session rows. -/
def dbSessionRepo (rows : List SessionRow) : List (String × String) :=
  rows.foldl (fun m r => insertS m r.id r.directory) []

/-- The `session_name` map seeded while folding session rows (titled only). -/
def dbSessionName (rows : List SessionRow) : List (String × String) :=
  rows.foldl (fun m r =>
    match r.title with
    | some name => insertS m r.id name
    | none => m) []

/-- The observation a part row is folded in as (lib.rs lines 741-846),
or `none` when the row is skipped. -/
def dbPartObs (repoMap nameMap : List (String × String)) (p : PartRow) :
    Option AgentTemp :=
  match p.data with
  | none => none
  | some v =>
    match classify_opencode_part v (normalize_epoch_ms p.time_updated) with
    | none => none
    | some (st, event_type, text, ts) =>
      let text := truncate_option_text text
      some { key := "opencode:" ++ p.session_id,
             source := "opencode",
             session_id := p.session_id,
             agent_name := lookupS nameMap p.session_id,
             state := st,
             last_ts_ms := ts,
             last_text := text,
             repo_path := lookupS repoMap p.session_id,
             recent_events := [{ ts_ms := ts, event_type := event_type,
                                 state_hint := st, text := text,
                                 files_touched := [] }] }

/-- `scan_opencode_db` from lib.rs: returns whether the database scan
"succeeded" (its `bool` result) together with the updated merge map.
Note that a mid-scan statement failure returns `false` while keeping the
session upserts already performed, exactly as the `&mut` map does. -/
def scan_opencode_db (env : DbEnv) (m : AMap) : Bool × AMap :=
  if env.file_exists = false then (false, m)
  else if env.open_ok = false then (false, m)
  else if env.session_stmt_ok = false then (false, m)
  else
    let sessRows := if env.session_query_ok then env.sessions else []
    let m1 := sessRows.foldl (fun acc r => upsert_agent acc (sessionRowObs r)) m
    if env.part_stmt_ok = false then (false, m1)
    else
      let repoMap := dbSessionRepo sessRows
      let nameMap := dbSessionName sessRows
      let partRows := if env.part_query_ok then env.parts else []
      let m2 := partRows.foldl (fun acc p =>
        match dbPartObs repoMap nameMap p with
        | none => acc
        | some a => upsert_agent acc a) m1
      (true, m2)

/-!
## JSON-store scanner (`scan_opencode`)

Message and part files are modelled by the values the scanner's JSON field
accesses return on the parsed documents; files whose read or parse fails are
skipped by the code and therefore simply absent from the lists.  The
session→repo and session→name maps built by `load_opencode_session_repo_map`
and `load_opencode_session_name_map` from the session/project file trees are
modelled as given string tables. -/

/-- One parsed OpenCode message file, abstracted to the fields read. -/
structure OcMessageFile where
  session_id : Option String
  parent_name : Option String
  time_created : Option Int
  time_completed : Option Int
  summary : Option String
  finish : Option String
  path_root : Option String
  path_cwd : Option String
  modified : Int
deriving DecidableEq, Repr

/-- One parsed OpenCode part file, abstracted to the fields read. -/
structure OcPartFile where
  session_id : Option String
  part : PartRecord
  modified : Int
deriving DecidableEq, Repr

/-- The observable state of the OpenCode JSON store. -/
structure OcJsonEnv where
  message_root_exists : Bool
  message_files : List OcMessageFile
  part_root_exists : Bool
  part_files : List OcPartFile
  session_repo : List (String × String)
  session_name : List (String × String)
deriving DecidableEq, Repr

/-- The observation a message file is folded in as (lib.rs lines 866-916). -/
def messageObs (repoMap nameMap : List (String × String)) (f : OcMessageFile) :
    AgentTemp :=
  let session_id := (orElseO f.session_id f.parent_name).getD "unknown"
  let ts := normalize_epoch_ms (f.time_created.getD f.modified)
  let completed := f.time_completed.isSome
  let st := if completed then "done" else "running"
  let text := truncate_option_text (orElseO f.summary f.finish)
  let repo_path := orElseO (orElseO f.path_root f.path_cwd)
                           (lookupS repoMap session_id)
  { key := "opencode:" ++ session_id,
    source := "opencode",
    session_id := session_id,
    agent_name := lookupS nameMap session_id,
    state := st,
    last_ts_ms := ts,
    last_text := text,
    repo_path := repo_path,
    recent_events := [{ ts_ms := ts, event_type := "message", state_hint := st,
                        text := text, files_touched := [] }] }

/-- The observation a part file is folded in as (lib.rs lines 923-1038),
or `none` when the file is skipped. -/
def partFileObs (repoMap nameMap : List (String × String)) (f : OcPartFile) :
    Option AgentTemp :=
  match f.session_id with
  | none => none
  | some sid =>
    match classify_opencode_part f.part (normalize_epoch_ms f.modified) with
    | none => none
    | some (st, event_type, text, ts) =>
      let text := truncate_option_text text
      some { key := "opencode:" ++ sid,
             source := "opencode",
             session_id := sid,
             agent_name := lookupS nameMap sid,
             state := st,
             last_ts_ms := ts,
             last_text := text,
             repo_path := lookupS repoMap sid,
             recent_events := [{ ts_ms := ts, event_type := event_type,
                                 state_hint := st, text := text,
                                 files_touched := [] }] }

/-- The JSON-store portion of `scan_opencode` (lib.rs lines 858-1038). -/
def scan_opencode_json (env : OcJsonEnv) (m : AMap) : AMap :=
  if env.message_root_exists = false then m
  else
    let m1 := env.message_files.foldl
      (fun acc f => upsert_agent acc (messageObs env.session_repo env.session_name f)) m
    if env.part_root_exists = false then m1
    else
      env.part_files.foldl (fun acc f =>
        match partFileObs env.session_repo env.session_name f with
        | none => acc
        | some a => upsert_agent acc a) m1

/-- The full OpenCode environment: database plus JSON store. -/
structure OcEnv where
  db : DbEnv
  json : OcJsonEnv
deriving DecidableEq, Repr

/-- `scan_opencode` from lib.rs: try the SQLite scan first; only when it
reports failure does the JSON-store scan run (on the same map). -/
def scan_opencode (env : OcEnv) (m : AMap) : AMap :=
  let r := scan_opencode_db env.db m
  if r.1 then r.2 else scan_opencode_json env.json r.2

/-!
## Codex JSONL tail scanner fold step

`scan_codex` folds each parsed tail line into the map via the
`entry(..).or_insert(..)` block at lib.rs lines 1211-1240.  One line's
extracted data (key, session id, timestamp, classified state/event/text,
optional cwd and agent name) is a `CodexObs`. -/

/-- The data `scan_codex` extracts from one parsed JSONL line. -/
structure CodexObs where
  key : String
  session_id : String
  ts : Int
  state : String
  event_type : String
  text : String
  repo_path : Option String
  agent_name : Option String
deriving DecidableEq, Repr

/-- The event a codex line contributes (lib.rs lines 1203-1209). -/
def codexEvent (o : CodexObs) : MonitorEventView :=
  { ts_ms := o.ts, event_type := o.event_type, state_hint := o.state,
    text := some o.text, files_touched := [] }

/-- The record `or_insert` creates when the key is new (lib.rs lines 1211-1221). -/
def codexDefaultAgent (o : CodexObs) : AgentTemp :=
  { key := o.key,
    source := "codex",
    session_id := o.session_id,
    agent_name := none,
    state := "idle",
    last_ts_ms := o.ts,
    last_text := some "Session discovered",
    repo_path := o.repo_path,
    recent_events := [] }

/-- The in-place mutations applied to the entry (lib.rs lines 1223-1240):
back-fill repo path and agent name, push the event at the front of the ring,
truncate the ring to 20, and advance the latest pointer only when the new
timestamp is `>=` the recorded one. -/
def codexUpdate (o : CodexObs) (a0 : AgentTemp) : AgentTemp :=
  let a1 := if a0.repo_path = none ∧ o.repo_path ≠ none
            then { a0 with repo_path := o.repo_path } else a0
  let a2 := if a1.agent_name = none ∧ o.agent_name ≠ none
            then { a1 with agent_name := o.agent_name } else a1
  let evs := codexEvent o :: a2.recent_events
  let evs := if evs.length > 20 then evs.take 20 else evs
  let a3 := { a2 with recent_events := evs }
  if o.ts ≥ a3.last_ts_ms then
    { a3 with last_ts_ms := o.ts,
              state := o.state,
              last_text := some o.text,
              agent_name := if o.agent_name ≠ none then o.agent_name
                            else a3.agent_name }
  else a3

/-- Fold one codex line into the merge map (`entry(..).or_insert(..)` then
the mutations above). -/
def codexStep (m : AMap) (o : CodexObs) : AMap :=
  match m with
  | [] => [(o.key, codexUpdate o (codexDefaultAgent o))]
  | (k, e) :: rest =>
    if k = o.key then (k, codexUpdate o e) :: rest
    else (k, e) :: codexStep rest o

/-!
## Snapshot notification differ

`desktop_monitor_tick` (lib.rs lines 589-626) walks the aged, sorted agent
views, building the next `previous_states` table and pushing a notification
for each agent whose state is `done`/`error` and differs from the previous
table's entry for its key.  The loop is embedded as `notifLoop`, threading
the accumulated notification list and next-state table. -/

/-- `MonitorAlert` from lib.rs. -/
structure MonitorAlert where
  kind : String
  message : String
  ts_ms : Int
deriving DecidableEq, Repr

/-- `MonitorAgentView` from lib.rs. -/
structure MonitorAgentView where
  key : String
  source : String
  session_id : String
  agent_id : String
  display_name : String
  state : String
  last_ts_ms : Int
  last_text : Option String
  repo_path : Option String
  files_touched : List String
  alerts : List MonitorAlert
  recent_events : List MonitorEventView
deriving DecidableEq, Repr

/-- `MonitorNotification` from lib.rs. -/
structure MonitorNotification where
  title : String
  message : String
  kind : String
  key : String
deriving DecidableEq, Repr

/-- The notification pushed for one agent (lib.rs lines 600-623). -/
def mkNotification (a : MonitorAgentView) : MonitorNotification :=
  { title := if a.state = "error" then "Agent error" else "Agent done",
    message := a.display_name ++ " - " ++
      (a.last_text.getD (if a.state = "error" then "Error" else "Completed")),
    kind := if a.state = "error" then "error" else "done",
    key := a.key }

/-- The notification loop of `desktop_monitor_tick`: for each agent, insert
its state into the next table, and push a notification iff the state is
`done` or `error` and differs from the previous table's entry for its key. -/
def notifLoop (prev : List (String × String)) :
    List MonitorAgentView →
    List MonitorNotification × List (String × String) →
    List MonitorNotification × List (String × String)
  | [], acc => acc
  | a :: rest, (ns, tbl) =>
    notifLoop prev rest
      (if (a.state = "done" ∨ a.state = "error") ∧ lookupS prev a.key ≠ some a.state
       then ns ++ [mkNotification a] else ns,
       insertS tbl a.key a.state)

/-- The notification step of a poll: notifications emitted and the wholesale
replacement value of the `previous_states` table. -/
def buildNotifications (prev : List (String × String))
    (agents : List MonitorAgentView) :
    List MonitorNotification × List (String × String) :=
  notifLoop prev agents ([], [])

/-!
## Generic observation folds

Within one poll, the merge map is written through exactly two operations:
`upsert_agent` (all OpenCode paths) and the codex in-place entry update.
`Obs` ranges over both so invariants can be stated over an arbitrary
interleaving of observations. -/

/-- One write into the merge map: an OpenCode-style upsert or a codex line. -/
inductive Obs where
  | ocode (a : AgentTemp)
  | codex (o : CodexObs)
deriving DecidableEq, Repr

/-- Apply one observation to the merge map. -/
def applyObs (m : AMap) (o : Obs) : AMap :=
  match o with
  | .ocode a => upsert_agent m a
  | .codex c => codexStep m c

/-- The agent key an observation addresses. -/
def obsKey : Obs → String
  | .ocode a => a.key
  | .codex c => c.key

/-- The timestamp an observation carries. -/
def obsTs : Obs → Int
  | .ocode a => a.last_ts_ms
  | .codex c => c.ts

/-!
## Concrete scenario data used by witnesses and counterexamples
-/

/-- A running agent 25 s silent, with the placeholder text, for the aging
witness. -/
def agingWitnessAgent : AgentTemp :=
  { key := "codex:w", source := "codex", session_id := "w", agent_name := none,
    state := "running", last_ts_ms := 0, last_text := some "Thinking",
    repo_path := none, recent_events := [] }

/-- A stored agent with known metadata, for the upsert witness. -/
def c3_existing : AgentTemp :=
  { key := "opencode:s", source := "opencode", session_id := "s",
    agent_name := some "Title", state := "running", last_ts_ms := 100,
    last_text := some "A", repo_path := some "/x", recent_events := [] }

/-- A later but less-informative observation, for the upsert witness. -/
def c3_incoming : AgentTemp :=
  { key := "opencode:s", source := "opencode", session_id := "s",
    agent_name := none, state := "done", last_ts_ms := 200,
    last_text := none, repo_path := none, recent_events := [] }

/-- A snapshot agent view for key `"A"` in the given state, for the
notification edge-trigger scenario. -/
def scenarioAgent (st : String) : MonitorAgentView :=
  { key := "A", source := "codex", session_id := "A", agent_id := "A",
    display_name := "codex: A", state := st, last_ts_ms := 0,
    last_text := none, repo_path := none, files_touched := [],
    alerts := [], recent_events := [] }

/-- The ts=1000 reasoning part of the spec's two-part OpenCode scenario. -/
def c5_reasoning_file : OcPartFile :=
  { session_id := some "s1",
    part := { part_type := "reasoning", state_status := none, tool := none,
              state_time_start := none, state_time_end := none,
              time_start := some 1000, time_end := none,
              text := some "Thinking", reason := none },
    modified := 5 }

/-- The ts=2000 completed tool part of the spec's two-part OpenCode scenario. -/
def c5_tool_file : OcPartFile :=
  { session_id := some "s1",
    part := { part_type := "tool", state_status := some "completed",
              tool := some "build", state_time_start := some 2000,
              state_time_end := none, time_start := none, time_end := none,
              text := none, reason := none },
    modified := 5 }

/-- A database environment whose file is absent. -/
def dbMissing : DbEnv :=
  { file_exists := false, open_ok := true, session_stmt_ok := true,
    session_query_ok := true, sessions := [], part_stmt_ok := true,
    part_query_ok := true, parts := [] }

/-- A database environment that opens and queries fine but holds zero rows. -/
def dbEmptyOk : DbEnv :=
  { file_exists := true, open_ok := true, session_stmt_ok := true,
    session_query_ok := true, sessions := [], part_stmt_ok := true,
    part_query_ok := true, parts := [] }

/-- The OpenCode environment of the two-part scenario: no database, an empty
message tree, and the two part files in most-recently-modified order. -/
def c5_env : OcEnv :=
  { db := dbMissing,
    json := { message_root_exists := true, message_files := [],
              part_root_exists := true,
              part_files := [c5_reasoning_file, c5_tool_file],
              session_repo := [], session_name := [] } }

/-- The Agent the scenario actually produces. -/
def c5_agent : AgentTemp :=
  { key := "opencode:s1", source := "opencode", session_id := "s1",
    agent_name := none, state := "done", last_ts_ms := 2000000,
    last_text := some "build: completed", repo_path := none,
    recent_events := [{ ts_ms := 2000000, event_type := "tool",
                        state_hint := "done",
                        text := some "build: completed",
                        files_touched := [] }] }

/-- An OpenCode-style observation for key `"k"`, for fold witnesses. -/
def w_ocode : AgentTemp :=
  { key := "k", source := "opencode", session_id := "k", agent_name := none,
    state := "running", last_ts_ms := 10, last_text := none,
    repo_path := none,
    recent_events := [{ ts_ms := 10, event_type := "status",
                        state_hint := "running", text := none,
                        files_touched := [] }] }

/-- A codex observation for key `"k"` with an earlier timestamp, for fold
witnesses. -/
def w_codex : CodexObs :=
  { key := "k", session_id := "k", ts := 5, state := "running",
    event_type := "status", text := "x", repo_path := none,
    agent_name := none }


/-!
# Helper lemmas
-/

theorem i64SaturatingMul_of_small (v : Int) (h1 : 0 < v)
    (h2 : v < 10000000000) : i64SaturatingMul v 1000 = v * 1000 := by
  simp only [i64SaturatingMul]
  split_ifs <;> omega

theorem orElseO_self {α : Type} (a : Option α) : orElseO a a = a := by
  cases a <;> rfl

theorem orElseO_absorb {α : Type} (a b : Option α) :
    orElseO a (orElseO a b) = orElseO a b := by
  cases a <;> rfl

theorem mergeAgents_self (o : AgentTemp) : mergeAgents o o = o := by
  simp [mergeAgents, orElseO_self]

theorem mergeAgents_absorb (o e : AgentTemp) :
    mergeAgents o (mergeAgents o e) = mergeAgents o e := by
  simp [mergeAgents, orElseO_absorb]

theorem mergeAgents_last_ts (o e : AgentTemp) :
    (mergeAgents o e).last_ts_ms = o.last_ts_ms := rfl

/-!
# C4 — Time Normalizer
-/

/-- C4: `normalize_epoch_ms` is a pure total function on integers applying
its checks in order — a value `≤ 0` is returned unchanged; a value
`< 10^10` is multiplied by 1000; a value `> 10^16` is divided by 10^6;
a value `> 10^13` is divided by 1000; anything else is returned unchanged —
and for any instant (in ms) encoded in seconds, milliseconds, microseconds or
nanoseconds landing within those magnitude bands, it recovers the same
millisecond value up to integer-division rounding (seconds recover the value
up to < 1000 ms; µs and ns recover it exactly). -/
theorem normalize_epoch_ms_spec :
    (∀ v : Int, v ≤ 0 → normalize_epoch_ms v = v) ∧
    (∀ v : Int, 0 < v → v < 10000000000 → normalize_epoch_ms v = v * 1000) ∧
    (∀ v : Int, 10000000000000000 < v →
       normalize_epoch_ms v = Int.tdiv v 1000000) ∧
    (∀ v : Int, 10000000000000 < v → v ≤ 10000000000000000 →
       normalize_epoch_ms v = Int.tdiv v 1000) ∧
    (∀ v : Int, 10000000000 ≤ v → v ≤ 10000000000000 →
       normalize_epoch_ms v = v) ∧
    (∀ t : Int, 10000000000 ≤ t → t ≤ 10000000000000 →
       normalize_epoch_ms t = t ∧
       (∀ s : Int, 0 < s → s < 10000000000 → s * 1000 ≤ t → t < (s + 1) * 1000 →
          normalize_epoch_ms s = s * 1000 ∧ t - 1000 < s * 1000 ∧ s * 1000 ≤ t) ∧
       (∀ e : Int, 10000000000000 < e → e ≤ 10000000000000000 →
          t * 1000 ≤ e → e < (t + 1) * 1000 → normalize_epoch_ms e = t) ∧
       (∀ e : Int, 10000000000000000 < e →
          t * 1000000 ≤ e → e < (t + 1) * 1000000 → normalize_epoch_ms e = t)) := by
  have hms : ∀ v : Int, 10000000000 ≤ v → v ≤ 10000000000000 →
      normalize_epoch_ms v = v := by
    intro v h1 h2
    unfold normalize_epoch_ms
    split_ifs <;> omega
  refine ⟨?_, ?_, ?_, ?_, hms, ?_⟩
  · intro v h
    unfold normalize_epoch_ms
    split_ifs <;> omega
  · intro v h1 h2
    unfold normalize_epoch_ms
    rw [if_neg (by omega), if_pos h2, i64SaturatingMul_of_small v h1 h2]
  · intro v h
    unfold normalize_epoch_ms
    split_ifs <;> first | rfl | omega
  · intro v h1 h2
    unfold normalize_epoch_ms
    split_ifs <;> first | rfl | omega
  · intro t h1 h2
    refine ⟨hms t h1 h2, ?_, ?_, ?_⟩
    · intro s hs1 hs2 hs3 hs4
      refine ⟨?_, by omega, hs3⟩
      unfold normalize_epoch_ms
      rw [if_neg (by omega), if_pos hs2, i64SaturatingMul_of_small s hs1 hs2]
    · intro e he1 he2 he3 he4
      unfold normalize_epoch_ms
      split_ifs <;> try omega
      rw [Int.tdiv_eq_ediv (by omega) (by omega)]
      omega
    · intro e he1 he2 he3
      unfold normalize_epoch_ms
      split_ifs <;> try omega
      rw [Int.tdiv_eq_ediv (by omega) (by omega)]
      omega

/-- Witness for C4 at concrete encodings of the instant 1700000000123 ms. -/
theorem normalize_epoch_ms_spec_witness :
    normalize_epoch_ms 1700000000123 = 1700000000123 ∧
    normalize_epoch_ms 1700000000 = 1700000000 * 1000 ∧
    normalize_epoch_ms 1700000000123456 = 1700000000123 ∧
    normalize_epoch_ms 1700000000123456789 = 1700000000123 := by
  obtain ⟨-, -, -, -, -, h6⟩ := normalize_epoch_ms_spec
  obtain ⟨hms, hsec, hus, hns⟩ := h6 1700000000123 (by decide) (by decide)
  exact ⟨hms,
         (hsec 1700000000 (by decide) (by decide) (by decide) (by decide)).1,
         hus 1700000000123456 (by decide) (by decide) (by decide) (by decide),
         hns 1700000000123456789 (by decide) (by decide) (by decide)⟩

/-!
# C1 — Aging policy
-/

/-- C1: for every agent produced by a poll, the aging step applies exactly
the two silence rules, with `silence = now - last_ts_ms`: an active
(`running`/`thinking`/`waiting`) agent over 20 s silent becomes `idle`
(placeholder "Thinking" becoming "Idle"), and then an `idle` agent over 90 s
silent becomes `done` (an absent, "Idle" or "Thinking" text becoming
"No recent activity"); agents in other states, or within the thresholds,
keep their state and text. -/
theorem aging_policy (now : Int) (a : AgentTemp) :
    ((a.state = "running" ∨ a.state = "thinking" ∨ a.state = "waiting") →
       now - a.last_ts_ms > 20000 → now - a.last_ts_ms ≤ 90000 →
       (ageAgent now a).state = "idle" ∧
       (ageAgent now a).last_text =
         (if a.last_text = some "Thinking" then some "Idle" else a.last_text)) ∧
    ((a.state = "running" ∨ a.state = "thinking" ∨ a.state = "waiting") →
       now - a.last_ts_ms > 90000 →
       (ageAgent now a).state = "done" ∧
       (ageAgent now a).last_text =
         (if a.last_text = none ∨ a.last_text = some "Idle"
             ∨ a.last_text = some "Thinking"
          then some "No recent activity" else a.last_text)) ∧
    (a.state = "idle" → now - a.last_ts_ms > 90000 →
       (ageAgent now a).state = "done" ∧
       (ageAgent now a).last_text =
         (if a.last_text = none ∨ a.last_text = some "Idle"
             ∨ a.last_text = some "Thinking"
          then some "No recent activity" else a.last_text)) ∧
    (a.state = "idle" → now - a.last_ts_ms ≤ 90000 → ageAgent now a = a) ∧
    (a.state ≠ "running" → a.state ≠ "thinking" → a.state ≠ "waiting" →
       a.state ≠ "idle" → ageAgent now a = a) ∧
    ((a.state = "running" ∨ a.state = "thinking" ∨ a.state = "waiting") →
       now - a.last_ts_ms ≤ 20000 → ageAgent now a = a) := by
  refine ⟨?_, ?_, ?_, ?_, ?_, ?_⟩
  · intro hs h1 h2
    simp only [ageAgent, IDLE_AFTER_MS, DONE_AFTER_MS]
    split_ifs <;> simp_all <;> omega
  · intro hs h1
    simp only [ageAgent, IDLE_AFTER_MS, DONE_AFTER_MS]
    split_ifs <;> simp_all <;> omega
  · intro hs h1
    simp only [ageAgent, IDLE_AFTER_MS, DONE_AFTER_MS]
    split_ifs <;> simp_all <;> omega
  · intro hs h1
    simp only [ageAgent, IDLE_AFTER_MS, DONE_AFTER_MS]
    split_ifs <;> simp_all <;> omega
  · intro h1 h2 h3 h4
    simp only [ageAgent, IDLE_AFTER_MS, DONE_AFTER_MS]
    split_ifs <;> simp_all
  · intro hs h1
    simp only [ageAgent, IDLE_AFTER_MS, DONE_AFTER_MS]
    split_ifs <;> simp_all <;> omega

/-- Witness for C1: a running agent 25 s silent with text "Thinking" ages to
`idle` with text "Idle". -/
theorem aging_policy_witness :
    (ageAgent 25000 agingWitnessAgent).state = "idle" ∧
    (ageAgent 25000 agingWitnessAgent).last_text =
      (if agingWitnessAgent.last_text = some "Thinking" then some "Idle"
       else agingWitnessAgent.last_text) :=
  (aging_policy 25000 agingWitnessAgent).1 (Or.inl rfl) (by decide) (by decide)

/-!
# C3 — Upsert merge policy
-/

/-- C3: for every stored record, `upsert_agent` replaces it iff the incoming
timestamp is `≥` the stored one; on replacement each field the incoming
observation leaves unset (repo path, text, agent name) is back-filled from
the outgoing record, and all other fields come from the incoming observation;
on a strictly earlier timestamp the map is left entirely unchanged. -/
theorem upsert_replace_policy (m : AMap) (inc e : AgentTemp)
    (h : lookupA m inc.key = some e) :
    (inc.last_ts_ms ≥ e.last_ts_ms →
      ∃ r, lookupA (upsert_agent m inc) inc.key = some r ∧
        r.key = inc.key ∧ r.source = inc.source ∧
        r.session_id = inc.session_id ∧ r.state = inc.state ∧
        r.last_ts_ms = inc.last_ts_ms ∧
        r.recent_events = inc.recent_events ∧
        r.repo_path = orElseO inc.repo_path e.repo_path ∧
        r.last_text = orElseO inc.last_text e.last_text ∧
        r.agent_name = orElseO inc.agent_name e.agent_name) ∧
    (inc.last_ts_ms < e.last_ts_ms → upsert_agent m inc = m) := by
  induction m with
  | nil => simp [lookupA] at h
  | cons kv rest ih =>
    obtain ⟨k, v⟩ := kv
    by_cases hk : k = inc.key
    · subst hk
      rw [lookupA, if_pos rfl] at h
      obtain rfl : e = v := by injection h with h; exact h.symm
      constructor
      · intro hge
        refine ⟨mergeAgents inc e, ?_, rfl, rfl, rfl, rfl, rfl, rfl, rfl, rfl, rfl⟩
        rw [upsert_agent, if_pos rfl, if_pos hge, lookupA, if_pos rfl]
      · intro hlt
        rw [upsert_agent, if_pos rfl, if_neg (by omega)]
    · rw [lookupA, if_neg hk] at h
      obtain ⟨ih1, ih2⟩ := ih h
      constructor
      · intro hge
        obtain ⟨r, hr, hprops⟩ := ih1 hge
        refine ⟨r, ?_, hprops⟩
        rw [upsert_agent, if_neg hk, lookupA, if_neg hk]
        exact hr
      · intro hlt
        rw [upsert_agent, if_neg hk, ih2 hlt]

/-- Witness for C3: a later observation with unset repo path, text and name
replaces the stored record while back-filling all three fields. -/
theorem upsert_replace_policy_witness :
    ∃ r, lookupA (upsert_agent [("opencode:s", c3_existing)] c3_incoming)
           c3_incoming.key = some r ∧
      r.key = c3_incoming.key ∧ r.source = c3_incoming.source ∧
      r.session_id = c3_incoming.session_id ∧ r.state = c3_incoming.state ∧
      r.last_ts_ms = c3_incoming.last_ts_ms ∧
      r.recent_events = c3_incoming.recent_events ∧
      r.repo_path = orElseO c3_incoming.repo_path c3_existing.repo_path ∧
      r.last_text = orElseO c3_incoming.last_text c3_existing.last_text ∧
      r.agent_name = orElseO c3_incoming.agent_name c3_existing.agent_name :=
  (upsert_replace_policy [("opencode:s", c3_existing)] c3_incoming c3_existing
    (by decide)).1 (by decide)

/-!
# C9 — Upsert idempotence
-/

/-- C9: applying the same observation twice to the merge map yields exactly
the same map (hence the same Agent record for its key) as applying it once. -/
theorem upsert_idempotent (m : AMap) (o : AgentTemp) :
    upsert_agent (upsert_agent m o) o = upsert_agent m o := by
  induction m with
  | nil =>
    simp [upsert_agent, mergeAgents_self]
  | cons kv rest ih =>
    obtain ⟨k, e⟩ := kv
    by_cases hk : k = o.key
    · subst hk
      by_cases hts : o.last_ts_ms ≥ e.last_ts_ms
      · rw [upsert_agent, if_pos rfl, if_pos hts,
            upsert_agent, if_pos rfl, if_pos (by rw [mergeAgents_last_ts]),
            mergeAgents_absorb]
      · rw [upsert_agent, if_pos rfl, if_neg hts,
            upsert_agent, if_pos rfl, if_neg hts]
    · rw [upsert_agent, if_neg hk, upsert_agent, if_neg hk, ih]

/-!
# C2 / C7 — Notification differ and previous-state table
-/

theorem mkNotification_key (a : MonitorAgentView) :
    (mkNotification a).key = a.key := rfl

theorem notifLoop_mem (prev : List (String × String))
    (agents : List MonitorAgentView) (ns : List MonitorNotification)
    (tbl : List (String × String)) (k : String) :
    (∃ n ∈ (notifLoop prev agents (ns, tbl)).1, n.key = k) ↔
      ((∃ n ∈ ns, n.key = k) ∨
       ∃ a ∈ agents, a.key = k ∧
         ((a.state = "done" ∨ a.state = "error") ∧
           lookupS prev a.key ≠ some a.state)) := by
  induction agents generalizing ns tbl with
  | nil => simp [notifLoop]
  | cons a rest ih =>
    rw [notifLoop]
    by_cases hc : (a.state = "done" ∨ a.state = "error") ∧
        lookupS prev a.key ≠ some a.state
    · rw [if_pos hc, ih]
      constructor
      · rintro (hn | hrest)
        · obtain ⟨n, hmem, hkey⟩ := hn
          rcases List.mem_append.mp hmem with h | h
          · exact Or.inl ⟨n, h, hkey⟩
          · obtain rfl : n = mkNotification a := by
              simpa using h
            exact Or.inr ⟨a, List.mem_cons_self a rest, hkey, hc⟩
        · obtain ⟨b, hb, hprops⟩ := hrest
          exact Or.inr ⟨b, List.mem_cons_of_mem a hb, hprops⟩
      · rintro (hn | hrest)
        · obtain ⟨n, hmem, hkey⟩ := hn
          exact Or.inl ⟨n, List.mem_append.mpr (Or.inl hmem), hkey⟩
        · obtain ⟨b, hb, hkey, hbc⟩ := hrest
          rcases List.mem_cons.mp hb with rfl | hb
          · exact Or.inl ⟨mkNotification b,
              List.mem_append.mpr (Or.inr (List.mem_singleton_self _)), hkey⟩
          · exact Or.inr ⟨b, hb, hkey, hbc⟩
    · rw [if_neg hc, ih]
      constructor
      · rintro (hn | hrest)
        · exact Or.inl hn
        · obtain ⟨b, hb, hprops⟩ := hrest
          exact Or.inr ⟨b, List.mem_cons_of_mem a hb, hprops⟩
      · rintro (hn | hrest)
        · exact Or.inl hn
        · obtain ⟨b, hb, hkey, hbc⟩ := hrest
          rcases List.mem_cons.mp hb with rfl | hb
          · exact absurd hbc hc
          · exact Or.inr ⟨b, hb, hkey, hbc⟩

theorem notifLoop_snd (prev : List (String × String))
    (agents : List MonitorAgentView) (ns : List MonitorNotification)
    (tbl : List (String × String)) :
    (notifLoop prev agents (ns, tbl)).2 =
      agents.foldl (fun t a => insertS t a.key a.state) tbl := by
  induction agents generalizing ns tbl with
  | nil => simp [notifLoop]
  | cons a rest ih =>
    rw [notifLoop]
    by_cases hc : (a.state = "done" ∨ a.state = "error") ∧
        lookupS prev a.key ≠ some a.state
    · rw [if_pos hc, ih, List.foldl_cons]
    · rw [if_neg hc, ih, List.foldl_cons]

theorem lookupS_insertS (t : List (String × String)) (k v key : String) :
    lookupS (insertS t k v) key = if k = key then some v else lookupS t key := by
  induction t with
  | nil => simp [insertS, lookupS]
  | cons kv rest ih =>
    obtain ⟨k', v'⟩ := kv
    by_cases hk : k' = k
    · subst hk
      by_cases hkey : k' = key <;> simp [insertS, lookupS, hkey]
    · by_cases hkey : k' = key
      · subst hkey
        simp [insertS, lookupS, hk, Ne.symm hk]
      · simp [insertS, lookupS, hk, hkey, ih]

theorem lookupS_stateTable_not_mem (agents : List MonitorAgentView)
    (tbl : List (String × String)) (k : String)
    (h : k ∉ agents.map (fun v => v.key)) :
    lookupS (agents.foldl (fun t a => insertS t a.key a.state) tbl) k =
      lookupS tbl k := by
  induction agents generalizing tbl with
  | nil => rfl
  | cons a rest ih =>
    simp only [List.map_cons, List.mem_cons] at h
    push_neg at h
    rw [List.foldl_cons, ih _ h.2]
    rw [lookupS_insertS, if_neg (fun he => h.1 he.symm)]

theorem lookupS_stateTable_mem (agents : List MonitorAgentView)
    (tbl : List (String × String)) (a : MonitorAgentView)
    (hnd : (agents.map (fun v => v.key)).Nodup) (ha : a ∈ agents) :
    lookupS (agents.foldl (fun t b => insertS t b.key b.state) tbl) a.key =
      some a.state := by
  induction agents generalizing tbl with
  | nil => simp at ha
  | cons b rest ih =>
    simp only [List.map_cons, List.nodup_cons] at hnd
    rcases List.mem_cons.mp ha with rfl | ha
    · rw [List.foldl_cons,
          lookupS_stateTable_not_mem rest _ a.key hnd.1,
          lookupS_insertS, if_pos rfl]
    · rw [List.foldl_cons]
      exact ih _ hnd.2 ha

/-- C2: on each poll a notification is emitted for an agent iff its new state
is `done` or `error` and differs from the state recorded for its key in the
previous-state table (an absent key counts as differing); consequently, in
the concrete scenario, `running → done` emits exactly one notification,
re-polling while still `done` emits none, and `done → error → done` emits one
notification per transition (two in total). -/
theorem notifications_edge_triggered :
    (∀ (prev : List (String × String)) (agents : List MonitorAgentView)
       (a : MonitorAgentView),
       (agents.map (fun v => v.key)).Nodup → a ∈ agents →
       ((∃ n ∈ (buildNotifications prev agents).1, n.key = a.key) ↔
         ((a.state = "done" ∨ a.state = "error") ∧
           lookupS prev a.key ≠ some a.state))) ∧
    (buildNotifications [("A", "running")] [scenarioAgent "done"]).1.length = 1 ∧
    (buildNotifications
       (buildNotifications [("A", "running")] [scenarioAgent "done"]).2
       [scenarioAgent "done"]).1.length = 0 ∧
    (buildNotifications [("A", "done")] [scenarioAgent "error"]).1.length = 1 ∧
    (buildNotifications
       (buildNotifications [("A", "done")] [scenarioAgent "error"]).2
       [scenarioAgent "done"]).1.length = 1 := by
  refine ⟨?_, by decide, by decide, by decide, by decide⟩
  intro prev agents a hnd ha
  rw [buildNotifications, notifLoop_mem]
  constructor
  · rintro (hn | ⟨b, hb, hkey, hcond⟩)
    · simp at hn
    · obtain rfl : b = a :=
        List.inj_on_of_nodup_map hnd hb ha hkey
      exact hcond
  · intro hcond
    exact Or.inr ⟨a, ha, rfl, hcond⟩

/-- Witness for C2: with an empty previous table, a `done` agent for a new
key produces a notification carrying its key. -/
theorem notifications_edge_triggered_witness :
    ∃ n ∈ (buildNotifications [] [scenarioAgent "done"]).1,
      n.key = (scenarioAgent "done").key :=
  (notifications_edge_triggered.1 [] [scenarioAgent "done"]
      (scenarioAgent "done") (by decide) (List.mem_singleton_self _)).mpr
    (by decide)

/-- C7: the previous-state table produced by a poll's notification step does
not depend on the incoming table at all (wholesale replacement, not a merge),
maps every key absent from the poll's agent set to nothing, and maps each
agent's key to exactly its current state. -/
theorem previous_state_table_replaced :
    (∀ (prev prev' : List (String × String)) (agents : List MonitorAgentView),
       (buildNotifications prev agents).2 = (buildNotifications prev' agents).2) ∧
    (∀ (prev : List (String × String)) (agents : List MonitorAgentView)
       (k : String), k ∉ agents.map (fun v => v.key) →
       lookupS (buildNotifications prev agents).2 k = none) ∧
    (∀ (prev : List (String × String)) (agents : List MonitorAgentView)
       (a : MonitorAgentView),
       (agents.map (fun v => v.key)).Nodup → a ∈ agents →
       lookupS (buildNotifications prev agents).2 a.key = some a.state) := by
  refine ⟨?_, ?_, ?_⟩
  · intro prev prev' agents
    rw [buildNotifications, buildNotifications, notifLoop_snd, notifLoop_snd]
  · intro prev agents k hk
    rw [buildNotifications, notifLoop_snd,
        lookupS_stateTable_not_mem agents [] k hk]
    rfl
  · intro prev agents a hnd ha
    rw [buildNotifications, notifLoop_snd]
    exact lookupS_stateTable_mem agents [] a hnd ha

/-- Witness for C7: a key not present in the poll is absent from the
replaced table even when the previous table knew it. -/
theorem previous_state_table_replaced_witness :
    lookupS (buildNotifications [("gone", "done")] [scenarioAgent "done"]).2
      "gone" = none :=
  previous_state_table_replaced.2.1 [("gone", "done")] [scenarioAgent "done"]
    "gone" (by decide)

/-!
# C6 — SQLite-store / JSON-store mutual exclusion
-/

/-- C6: within one poll the two OpenCode scans are mutually exclusive — when
the database file does not exist the database scanner reports not available
and the JSON-store scan runs, and whenever the database scan succeeds the
JSON-store scan contributes nothing; in particular a successfully opened
database with zero rows leaves the map untouched even when JSON files
exist. -/
theorem opencode_db_json_exclusive :
    (∀ (env : OcEnv) (m : AMap), env.db.file_exists = false →
       scan_opencode_db env.db m = (false, m) ∧
       scan_opencode env m = scan_opencode_json env.json m) ∧
    (∀ (env : OcEnv) (m : AMap), (scan_opencode_db env.db m).1 = true →
       scan_opencode env m = (scan_opencode_db env.db m).2) ∧
    (∀ (json : OcJsonEnv) (m : AMap),
       (scan_opencode_db dbEmptyOk m).1 = true ∧
       scan_opencode ⟨dbEmptyOk, json⟩ m = m) := by
  refine ⟨?_, ?_, ?_⟩
  · intro env m h
    have h1 : scan_opencode_db env.db m = (false, m) := by
      rw [scan_opencode_db, if_pos h]
    exact ⟨h1, by simp [scan_opencode, h1]⟩
  · intro env m h
    simp [scan_opencode, h]
  · intro json m
    exact ⟨rfl, rfl⟩

/-- Witness for C6: with a missing database file, the database scan reports
not available and the whole scan reduces to the JSON-store scan. -/
theorem opencode_db_json_exclusive_witness :
    scan_opencode_db dbMissing [] = (false, []) ∧
    scan_opencode ⟨dbMissing, c5_env.json⟩ [] =
      scan_opencode_json c5_env.json [] :=
  opencode_db_json_exclusive.1 ⟨dbMissing, c5_env.json⟩ [] (by decide)

/-!
# C5 — Two-part OpenCode scenario
-/

/-- C5 fails on the code: folding the ts=1000 reasoning part and then the
ts=2000 completed tool part for session `s1` yields an agent whose
`recent_events` does NOT contain 2 entries — every OpenCode upsert replaces
the stored event list with the incoming single-event list, so only the
latest observation's event remains. -/
theorem opencode_scenario_counterexample :
    ¬ ∃ a, lookupA (scan_opencode c5_env []) "opencode:s1" = some a ∧
        a.recent_events.length = 2 := by
  rintro ⟨a, h1, h2⟩
  have h : lookupA (scan_opencode c5_env []) "opencode:s1" = some c5_agent := by
    decide
  rw [h] at h1
  injection h1 with h1
  subst h1
  exact absurd h2 (by decide)

/-- C5 amended: the scenario yields final state `done` and text
`"build: completed"` as claimed, but `recent_events` holds exactly 1 entry —
the newest observation's event — because OpenCode upserts replace the stored
event list rather than appending to it. -/
theorem opencode_scenario_amended :
    lookupA (scan_opencode c5_env []) "opencode:s1" = some c5_agent ∧
    c5_agent.state = "done" ∧
    c5_agent.last_text = some "build: completed" ∧
    c5_agent.recent_events.length = 1 ∧
    c5_agent.recent_events =
      [{ ts_ms := 2000000, event_type := "tool", state_hint := "done",
         text := some "build: completed", files_touched := [] }] := by
  exact ⟨by decide, rfl, rfl, rfl, rfl⟩

/-!
# C8 / C10 — Merge-map invariants
-/

theorem lookupA_eq_none_iff (m : AMap) (k : String) :
    lookupA m k = none ↔ k ∉ m.map Prod.fst := by
  induction m with
  | nil => simp [lookupA]
  | cons kv rest ih =>
    obtain ⟨k', v⟩ := kv
    by_cases hk : k' = k
    · subst hk
      simp [lookupA]
    · simp [lookupA, hk, ih, Ne.symm hk]

theorem lookupA_mem (m : AMap) (k : String) (a : AgentTemp)
    (h : lookupA m k = some a) : (k, a) ∈ m := by
  induction m with
  | nil => simp [lookupA] at h
  | cons kv rest ih =>
    obtain ⟨k', v⟩ := kv
    by_cases hk : k' = k
    · subst hk
      rw [lookupA, if_pos rfl] at h
      obtain rfl : v = a := by injection h
      exact List.mem_cons_self _ _
    · rw [lookupA, if_neg hk] at h
      exact List.mem_cons_of_mem _ (ih h)

theorem upsert_keys (m : AMap) (inc : AgentTemp) :
    (upsert_agent m inc).map Prod.fst =
      if (lookupA m inc.key).isSome then m.map Prod.fst
      else m.map Prod.fst ++ [inc.key] := by
  induction m with
  | nil => simp [upsert_agent, lookupA]
  | cons kv rest ih =>
    obtain ⟨k, e⟩ := kv
    by_cases hk : k = inc.key
    · subst hk
      by_cases hts : inc.last_ts_ms ≥ e.last_ts_ms <;>
        simp [upsert_agent, lookupA, hts]
    · simp [upsert_agent, lookupA, hk, ih]
      split_ifs <;> simp

theorem codexStep_keys (m : AMap) (c : CodexObs) :
    (codexStep m c).map Prod.fst =
      if (lookupA m c.key).isSome then m.map Prod.fst
      else m.map Prod.fst ++ [c.key] := by
  induction m with
  | nil => simp [codexStep, lookupA]
  | cons kv rest ih =>
    obtain ⟨k, e⟩ := kv
    by_cases hk : k = c.key
    · subst hk
      simp [codexStep, lookupA]
    · simp [codexStep, lookupA, hk, ih]
      split_ifs <;> simp

theorem lookupA_upsert_ne (m : AMap) (inc : AgentTemp) (k : String)
    (h : k ≠ inc.key) :
    lookupA (upsert_agent m inc) k = lookupA m k := by
  induction m with
  | nil => simp [upsert_agent, lookupA, Ne.symm h]
  | cons kv rest ih =>
    obtain ⟨k', e⟩ := kv
    by_cases hk : k' = inc.key
    · subst hk
      by_cases hts : inc.last_ts_ms ≥ e.last_ts_ms <;>
        simp [upsert_agent, lookupA, hts, Ne.symm h]
    · by_cases hkey : k' = k <;>
        simp [upsert_agent, lookupA, hk, hkey, ih, h]

theorem lookupA_codexStep_ne (m : AMap) (c : CodexObs) (k : String)
    (h : k ≠ c.key) :
    lookupA (codexStep m c) k = lookupA m k := by
  induction m with
  | nil => simp [codexStep, lookupA, Ne.symm h]
  | cons kv rest ih =>
    obtain ⟨k', e⟩ := kv
    by_cases hk : k' = c.key
    · subst hk
      simp [codexStep, lookupA, Ne.symm h]
    · by_cases hkey : k' = k <;>
        simp [codexStep, lookupA, hk, hkey, ih, h]

theorem lookupA_upsert_none (m : AMap) (inc : AgentTemp)
    (h : lookupA m inc.key = none) :
    lookupA (upsert_agent m inc) inc.key = some inc := by
  induction m with
  | nil => simp [upsert_agent, lookupA]
  | cons kv rest ih =>
    obtain ⟨k, e⟩ := kv
    by_cases hk : k = inc.key
    · subst hk
      rw [lookupA, if_pos rfl] at h
      cases h
    · rw [lookupA, if_neg hk] at h
      simp [upsert_agent, lookupA, hk, ih h]

theorem lookupA_upsert_some (m : AMap) (inc e : AgentTemp)
    (h : lookupA m inc.key = some e) :
    lookupA (upsert_agent m inc) inc.key =
      some (if inc.last_ts_ms ≥ e.last_ts_ms then mergeAgents inc e else e) := by
  induction m with
  | nil => simp [lookupA] at h
  | cons kv rest ih =>
    obtain ⟨k, v⟩ := kv
    by_cases hk : k = inc.key
    · subst hk
      rw [lookupA, if_pos rfl] at h
      obtain rfl : e = v := by injection h with h; exact h.symm
      by_cases hts : inc.last_ts_ms ≥ e.last_ts_ms <;>
        simp [upsert_agent, lookupA, hts]
    · rw [lookupA, if_neg hk] at h
      simp [upsert_agent, lookupA, hk, ih h]

theorem lookupA_codexStep_none (m : AMap) (c : CodexObs)
    (h : lookupA m c.key = none) :
    lookupA (codexStep m c) c.key =
      some (codexUpdate c (codexDefaultAgent c)) := by
  induction m with
  | nil => simp [codexStep, lookupA]
  | cons kv rest ih =>
    obtain ⟨k, e⟩ := kv
    by_cases hk : k = c.key
    · subst hk
      rw [lookupA, if_pos rfl] at h
      cases h
    · rw [lookupA, if_neg hk] at h
      simp [codexStep, lookupA, hk, ih h]

theorem lookupA_codexStep_some (m : AMap) (c : CodexObs) (e : AgentTemp)
    (h : lookupA m c.key = some e) :
    lookupA (codexStep m c) c.key = some (codexUpdate c e) := by
  induction m with
  | nil => simp [lookupA] at h
  | cons kv rest ih =>
    obtain ⟨k, v⟩ := kv
    by_cases hk : k = c.key
    · subst hk
      rw [lookupA, if_pos rfl] at h
      obtain rfl : e = v := by injection h with h; exact h.symm
      simp [codexStep, lookupA]
    · rw [lookupA, if_neg hk] at h
      simp [codexStep, lookupA, hk, ih h]

theorem codexUpdate_last_ts (c : CodexObs) (a : AgentTemp) :
    (codexUpdate c a).last_ts_ms =
      if c.ts ≥ a.last_ts_ms then c.ts else a.last_ts_ms := by
  simp only [codexUpdate]
  split_ifs <;> simp_all

theorem codexUpdate_recent_events (c : CodexObs) (a : AgentTemp) :
    (codexUpdate c a).recent_events =
      (if (codexEvent c :: a.recent_events).length > 20
       then (codexEvent c :: a.recent_events).take 20
       else codexEvent c :: a.recent_events) := by
  simp only [codexUpdate]
  split_ifs <;> simp_all

theorem codexUpdate_events_le (c : CodexObs) (a : AgentTemp) :
    (codexUpdate c a).recent_events.length ≤ 20 := by
  rw [codexUpdate_recent_events]
  split_ifs with h
  · simp [List.length_take]
  · simp only [List.length_cons] at h ⊢
    omega

theorem mergeAgents_recent_events (o e : AgentTemp) :
    (mergeAgents o e).recent_events = o.recent_events := rfl

theorem applyObs_nodup_keys (m : AMap) (o : Obs)
    (h : (m.map Prod.fst).Nodup) : ((applyObs m o).map Prod.fst).Nodup := by
  have hkeys : (applyObs m o).map Prod.fst =
      if (lookupA m (obsKey o)).isSome then m.map Prod.fst
      else m.map Prod.fst ++ [obsKey o] := by
    cases o with
    | ocode a => exact upsert_keys m a
    | codex c => exact codexStep_keys m c
  rw [hkeys]
  split_ifs with hsome
  · exact h
  · have hnotmem : obsKey o ∉ m.map Prod.fst := by
      rw [← lookupA_eq_none_iff]
      cases hl : lookupA m (obsKey o)
      · rfl
      · rw [hl] at hsome
        simp at hsome
    simp [List.nodup_append, h, hnotmem]

theorem lookupA_applyObs_ne (m : AMap) (o : Obs) (k : String)
    (h : k ≠ obsKey o) :
    lookupA (applyObs m o) k = lookupA m k := by
  cases o with
  | ocode a => exact lookupA_upsert_ne m a k h
  | codex c => exact lookupA_codexStep_ne m c k h

theorem lookupA_applyObs_none (m : AMap) (o : Obs)
    (h : lookupA m (obsKey o) = none) :
    ∃ a, lookupA (applyObs m o) (obsKey o) = some a ∧
      a.last_ts_ms = obsTs o := by
  cases o with
  | ocode a => exact ⟨a, lookupA_upsert_none m a h, rfl⟩
  | codex c =>
    refine ⟨codexUpdate c (codexDefaultAgent c),
            lookupA_codexStep_none m c h, ?_⟩
    rw [codexUpdate_last_ts]
    simp [codexDefaultAgent, obsTs]

theorem lookupA_applyObs_some (m : AMap) (o : Obs) (e : AgentTemp)
    (h : lookupA m (obsKey o) = some e) :
    ∃ a, lookupA (applyObs m o) (obsKey o) = some a ∧
      a.last_ts_ms =
        (if obsTs o ≥ e.last_ts_ms then obsTs o else e.last_ts_ms) := by
  cases o with
  | ocode b =>
    refine ⟨_, lookupA_upsert_some m b e h, ?_⟩
    by_cases hts : b.last_ts_ms ≥ e.last_ts_ms <;>
      simp [hts, mergeAgents_last_ts, obsTs]
  | codex c =>
    refine ⟨codexUpdate c e, lookupA_codexStep_some m c e h, ?_⟩
    rw [codexUpdate_last_ts]
    rfl

theorem fold_lookup_untouched (ops : List Obs) (m : AMap) (k : String)
    (h : ∀ o ∈ ops, obsKey o ≠ k) :
    lookupA (ops.foldl applyObs m) k = lookupA m k := by
  induction ops generalizing m with
  | nil => rfl
  | cons o rest ih =>
    rw [List.foldl_cons,
        ih (applyObs m o) (fun o' ho' => h o' (List.mem_cons_of_mem o ho')),
        lookupA_applyObs_ne m o k
          (fun he => h o (List.mem_cons_self o rest) he.symm)]

theorem fold_lookup_max (ops : List Obs) (k : String)
    (hne : ops.filter (fun x => obsKey x == k) ≠ []) :
    ∃ a, lookupA (ops.foldl applyObs []) k = some a ∧
      a.last_ts_ms ∈ (ops.filter (fun x => obsKey x == k)).map obsTs ∧
      ∀ o ∈ ops, obsKey o = k → obsTs o ≤ a.last_ts_ms := by
  induction ops using List.reverseRecOn with
  | nil => simp at hne
  | append_singleton ops o ih =>
    rw [List.foldl_append, List.foldl_cons, List.foldl_nil]
    by_cases hko : obsKey o = k
    · by_cases hex : ops.filter (fun x => obsKey x == k) = []
      · have hnone : lookupA (ops.foldl applyObs []) k = none := by
          rw [fold_lookup_untouched]
          · rfl
          · intro o' ho' heq
            have hmem : o' ∈ ops.filter (fun x => obsKey x == k) :=
              List.mem_filter.mpr ⟨ho', by simp [heq]⟩
            simp [hex] at hmem
        subst hko
        obtain ⟨a, ha, hts⟩ := lookupA_applyObs_none _ o hnone
        refine ⟨a, ha, ?_, ?_⟩
        · rw [List.filter_append, hex]
          simp [hts]
        · intro o' ho' hk'
          rcases List.mem_append.mp ho' with hmem | hmem
          · exfalso
            have hmf : o' ∈ ops.filter (fun x => obsKey x == obsKey o) :=
              List.mem_filter.mpr ⟨hmem, by simp [hk']⟩
            simp [hex] at hmf
          · obtain rfl : o' = o := by simpa using hmem
            rw [hts]
      · obtain ⟨a, ha, hmem, hbound⟩ := ih hex
        subst hko
        obtain ⟨a', ha', hts'⟩ := lookupA_applyObs_some _ o a ha
        refine ⟨a', ha', ?_, ?_⟩
        · rw [List.filter_append, List.map_append]
          by_cases hge : obsTs o ≥ a.last_ts_ms
          · rw [hts', if_pos hge]
            refine List.mem_append.mpr (Or.inr ?_)
            simp
          · rw [hts', if_neg hge]
            exact List.mem_append.mpr (Or.inl hmem)
        · intro o' ho' hk'
          rcases List.mem_append.mp ho' with hmem' | hmem'
          · have hb := hbound o' hmem' hk'
            rw [hts']
            split_ifs <;> omega
          · obtain rfl : o' = o := by simpa using hmem'
            rw [hts']
            split_ifs <;> omega
    · have hfo : (ops ++ [o]).filter (fun x => obsKey x == k) =
          ops.filter (fun x => obsKey x == k) := by
        rw [List.filter_append]
        simp [hko]
      rw [hfo] at hne
      obtain ⟨a, ha, hmem, hbound⟩ := ih hne
      refine ⟨a, ?_, ?_, ?_⟩
      · rw [lookupA_applyObs_ne _ o k (fun he => hko he.symm)]
        exact ha
      · rw [hfo]
        exact hmem
      · intro o' ho' hk'
        rcases List.mem_append.mp ho' with hmem' | hmem'
        · exact hbound o' hmem' hk'
        · obtain rfl : o' = o := by simpa using hmem'
          exact absurd hk' hko

/-- C8: within one poll the merge map keeps at most one record per key
(both map operations preserve key-distinctness), and after any sequence of
observations has been folded in from the empty map, the record stored for a
key carries `lastTimestampMs` equal to the maximum timestamp among the
observations folded into it — it is one of their timestamps and bounds them
all. -/
theorem merge_map_invariant :
    (∀ (m : AMap) (o : Obs), (m.map Prod.fst).Nodup →
       ((applyObs m o).map Prod.fst).Nodup) ∧
    (∀ (ops : List Obs) (k : String),
       ops.filter (fun x => obsKey x == k) ≠ [] →
       ∃ a, lookupA (ops.foldl applyObs []) k = some a ∧
         a.last_ts_ms ∈ (ops.filter (fun x => obsKey x == k)).map obsTs ∧
         ∀ o ∈ ops, obsKey o = k → obsTs o ≤ a.last_ts_ms) :=
  ⟨applyObs_nodup_keys, fold_lookup_max⟩

/-- Witness for C8: an OpenCode observation at ts=10 followed by a codex
observation at ts=5 for the same key leaves a single record whose timestamp
is the maximum of the two. -/
theorem merge_map_invariant_witness :
    ∃ a, lookupA ([Obs.ocode w_ocode, Obs.codex w_codex].foldl applyObs [])
        "k" = some a ∧
      a.last_ts_ms ∈
        (([Obs.ocode w_ocode, Obs.codex w_codex].filter
            (fun x => obsKey x == "k")).map obsTs) ∧
      ∀ o ∈ [Obs.ocode w_ocode, Obs.codex w_codex],
        obsKey o = "k" → obsTs o ≤ a.last_ts_ms :=
  merge_map_invariant.2 [Obs.ocode w_ocode, Obs.codex w_codex] "k" (by decide)

theorem upsert_values_bound (m : AMap) (inc : AgentTemp)
    (hinc : inc.recent_events.length ≤ 20) :
    (∀ p ∈ m, (Prod.snd p).recent_events.length ≤ 20) →
    ∀ p ∈ upsert_agent m inc, (Prod.snd p).recent_events.length ≤ 20 := by
  induction m with
  | nil =>
    intro _ p hp
    simp only [upsert_agent, List.mem_singleton] at hp
    subst hp
    exact hinc
  | cons kv rest ih =>
    obtain ⟨k, e⟩ := kv
    intro hm p hp
    rw [upsert_agent] at hp
    by_cases hk : k = inc.key
    · rw [if_pos hk] at hp
      by_cases hts : inc.last_ts_ms ≥ e.last_ts_ms
      · rw [if_pos hts] at hp
        rcases List.mem_cons.mp hp with rfl | hmem
        · simpa [mergeAgents_recent_events] using hinc
        · exact hm p (List.mem_cons_of_mem _ hmem)
      · rw [if_neg hts] at hp
        exact hm p hp
    · rw [if_neg hk] at hp
      rcases List.mem_cons.mp hp with rfl | hmem
      · exact hm _ (List.mem_cons_self _ _)
      · exact ih (fun q hq => hm q (List.mem_cons_of_mem _ hq)) p hmem

theorem codexStep_values_bound (m : AMap) (c : CodexObs) :
    (∀ p ∈ m, (Prod.snd p).recent_events.length ≤ 20) →
    ∀ p ∈ codexStep m c, (Prod.snd p).recent_events.length ≤ 20 := by
  induction m with
  | nil =>
    intro _ p hp
    simp only [codexStep, List.mem_singleton] at hp
    subst hp
    exact codexUpdate_events_le c (codexDefaultAgent c)
  | cons kv rest ih =>
    obtain ⟨k, e⟩ := kv
    intro hm p hp
    rw [codexStep] at hp
    by_cases hk : k = c.key
    · rw [if_pos hk] at hp
      rcases List.mem_cons.mp hp with rfl | hmem
      · exact codexUpdate_events_le c e
      · exact hm p (List.mem_cons_of_mem _ hmem)
    · rw [if_neg hk] at hp
      rcases List.mem_cons.mp hp with rfl | hmem
      · exact hm _ (List.mem_cons_self _ _)
      · exact ih (fun q hq => hm q (List.mem_cons_of_mem _ hq)) p hmem

theorem fold_values_bound (ops : List Obs) :
    (∀ a, Obs.ocode a ∈ ops → a.recent_events.length = 1) →
    ∀ m : AMap, (∀ p ∈ m, (Prod.snd p).recent_events.length ≤ 20) →
    ∀ p ∈ ops.foldl applyObs m, (Prod.snd p).recent_events.length ≤ 20 := by
  induction ops with
  | nil => intro _ m hm p hp; exact hm p hp
  | cons o rest ih =>
    intro hops m hm
    rw [List.foldl_cons]
    refine ih (fun a ha => hops a (List.mem_cons_of_mem o ha)) (applyObs m o) ?_
    cases o with
    | ocode a =>
      exact upsert_values_bound m a
        (by rw [hops a (List.mem_cons_self _ _)]; omega) hm
    | codex c =>
      exact codexStep_values_bound m c hm

/-- C10: after any interleaving of scanner observations is folded into the
empty merge map — OpenCode-style upserts each carrying exactly one event, and
codex tail lines whose in-place update truncates the per-session event ring
to 20 after each insertion — every stored agent's `recent_events` holds at
most 20 entries. -/
theorem recent_events_bounded (ops : List Obs)
    (hops : ∀ a, Obs.ocode a ∈ ops → a.recent_events.length = 1) :
    ∀ (k : String) (a : AgentTemp),
      lookupA (ops.foldl applyObs []) k = some a →
      a.recent_events.length ≤ 20 := by
  intro k a h
  have hp := fold_values_bound ops hops [] (by simp) (k, a)
    (lookupA_mem _ _ _ h)
  simpa using hp

/-- Witness for C10 on a concrete two-observation fold. -/
theorem recent_events_bounded_witness :
    ∃ a, lookupA ([Obs.ocode w_ocode, Obs.codex w_codex].foldl applyObs [])
        "k" = some a ∧ a.recent_events.length ≤ 20 := by
  have hops : ∀ a, Obs.ocode a ∈ [Obs.ocode w_ocode, Obs.codex w_codex] →
      a.recent_events.length = 1 := by
    intro b hb
    rcases List.mem_cons.mp hb with h | h
    · injection h with h
      subst h
      decide
    · rcases List.mem_cons.mp h with h | h
      · exact Obs.noConfusion h
      · simp at h
  exact ⟨codexUpdate w_codex w_ocode, by decide,
    recent_events_bounded [Obs.ocode w_ocode, Obs.codex w_codex] hops "k"
      (codexUpdate w_codex w_ocode) (by decide)⟩
